import Mathlib

/-!
Verification of the ntool network-diagnostics repository (alkuzin/ntool).

The repository is C++ built on ICMP over raw IPv4 sockets. This file gives a
shallow embedding of the behaviourally relevant parts of the source:

* `calculate_checksum` — the one's-complement checksum over a byte buffer
  (src/src/icmp.cpp, `calculate_checksum`);
* `set_packet` — building the 64-byte echo-request packet and patching its
  checksum bytes (src/src/ping.cpp, `set_packet`);
* `handle_packet` — extracting the ICMP reply header and the IP TTL from the
  receive buffer (src/src/ping.cpp, `handle_packet`);
* `summary_packet_loss` — the packet-loss computation of the ping summary
  (src/src/ping.cpp, `summary`);
* `pingLoop` / `ping_run` — the ping probe loop, with the channel abstracted
  as an oracle from probe number to outcome (src/src/ping.cpp, `ping`,
  `send`, `recv`, `sigint_handler`);
* `trQueries` / `trHops` / `traceroute_run` — the traceroute TTL scan
  (src/src/traceroute.cpp, second revision of `traceroute`);
* `mean` / `mdev` — the statistics helpers (src/include/ntool/utils.hpp).

Machine integers are modelled as `Nat` with explicit wrap (`% 2 ^ 32`,
`% 65536`, `% 256`) where the C types overflow or truncate.
-/

/-- Pair a byte buffer into 16-bit words exactly as the C loop
`for (sum = 0; size > 1; size -= 2) sum += *buf++;` reads it on a
little-endian machine: two consecutive bytes form the word `b0 + 256 * b1`.
A trailing odd byte is added on its own (`if (size == 1) sum += *(uint8*)buf`),
i.e. as the low byte of a padding word. -/
def toWords : List Nat → List Nat
  | [] => []
  | [b] => [b]
  | b0 :: b1 :: rest => (b0 + 256 * b1) :: toWords rest

/-- The 32-bit running sum of `calculate_checksum`: the word sum reduced
modulo `2 ^ 32`, since the accumulator is a `uint32_t`. -/
def wordSum32 (buf : List Nat) : Nat :=
  (toWords buf).sum % 2 ^ 32

/-- First fold of the running sum:
`sum = (sum >> 0x10) + (sum & 0xFFFF);`. -/
def fold1 (s : Nat) : Nat := s / 65536 + s % 65536

/-- Second fold: `sum += (sum >> 0x10);`. -/
def fold2 (s : Nat) : Nat := fold1 s + fold1 s / 65536

/-- Shallow embedding of `calculate_checksum` (src/src/icmp.cpp lines
185-202).  After the summation loop the code folds twice (`fold1`, `fold2`)
and returns `~sum` truncated to `uint16_t`; on a 32-bit unsigned `sum` the
complement is `2 ^ 32 - 1 - sum`. -/
def calculate_checksum (buf : List Nat) : Nat :=
  (2 ^ 32 - 1 - fold2 (wordSum32 buf)) % 65536

/-- The fold described by the specification: repeatedly add the high 16 bits
of the running sum into its low 16 bits until the value fits in 16 bits. -/
def onesFold (s : Nat) : Nat :=
  if s < 65536 then s else onesFold (s / 65536 + s % 65536)
termination_by s
decreasing_by omega

/-- Checksum as the specification words it: fold the 32-bit running sum until
it fits in 16 bits, then return the bitwise complement (within 16 bits). -/
def checksum_spec (buf : List Nat) : Nat :=
  65535 - onesFold (wordSum32 buf)

/-- The constant 56-byte ICMP payload of the ping engine
(src/src/ping.cpp, `payload`): the 55 characters of the string literal
followed by its terminating zero byte. -/
def payloadBytes : List Nat :=
  [33, 33, 34, 35, 36, 37, 38, 39, 40, 41, 42, 43, 44, 45, 46, 47,
   48, 49, 50, 51, 52, 53, 54, 55, 56, 57, 58, 59, 60, 61, 62, 63,
   64, 65, 66, 67, 68, 69, 70, 71, 72, 73, 74, 75, 76, 77, 78, 79,
   80, 81, 82, 83, 84, 85, 86, 0]

/-- The 64-byte ICMP echo packet as laid out by `set_packet`
(src/src/ping.cpp lines 200-213): the 8-byte `icmphdr` written by `memcpy`
(type, code, checksum low byte then high byte, identifier and sequence in
native little-endian order) followed by the constant payload.  `ck` is the
value stored in the checksum field. -/
def icmp_packet_bytes (t c ck i s : Nat) : List Nat :=
  t :: c :: ck % 256 :: ck / 256 % 256 :: i % 256 :: i / 256 % 256 ::
    s % 256 :: s / 256 % 256 :: payloadBytes

/-- Shallow embedding of `set_packet` (src/src/ping.cpp lines 200-213):
the packet is built with the checksum field zeroed, the checksum is computed
over the whole 64-byte buffer, and its low byte is stored at offset 2
(`packet[2] = hdr.checksum & 0xFFFF`, truncated by the `uint8_t` store) and
its high byte at offset 3 (`packet[3] = hdr.checksum >> 0x8`). -/
def set_packet (t c i s : Nat) : List Nat :=
  icmp_packet_bytes t c (calculate_checksum (icmp_packet_bytes t c 0 i s)) i s

/-! ## Reply decoding (src/src/ping.cpp, `recv` and `handle_packet`) -/

/-- Fields produced by `handle_packet`: the 8-byte `icmphdr` copied out of
the receive buffer, plus the IP header's TTL. -/
structure IcmpReply where
  ty : Nat
  code : Nat
  cksum : Nat
  ident : Nat
  seqn : Nat
  ttl : Nat
  deriving DecidableEq

/-- The static 64-byte receive buffer of `recv` (`static std::uint8_t
packet[ICMP_PACKET_SIZE]`, zero-initialised): `recvfrom` stores at most 64
received bytes at its start, the rest keeps its previous contents (zero on
the first receive, which is what we model). -/
def recvBuffer (data : List Nat) : List Nat :=
  data.take 64 ++ List.replicate (64 - (data.take 64).length) 0

/-- Shallow embedding of `handle_packet` (src/src/ping.cpp lines 234-243).
The code reinterprets the buffer as an `iphdr` (IHL is the low nibble of
byte 0, TTL is byte 8), then `memcpy`s 8 bytes starting at offset
`ihl * 4` into an `icmphdr`, whose 16-bit fields are read in native
little-endian order.  There is no length check and no error path. -/
def handle_packet (data : List Nat) : IcmpReply :=
  let b := recvBuffer data
  let hdr := (b.drop ((b.getD 0 0 % 16) * 4)).take 8
  { ty := hdr.getD 0 0
    code := hdr.getD 1 0
    cksum := hdr.getD 2 0 + 256 * hdr.getD 3 0
    ident := hdr.getD 4 0 + 256 * hdr.getD 5 0
    seqn := hdr.getD 6 0 + 256 * hdr.getD 7 0
    ttl := b.getD 8 0 }

/-- Decoding as the specification words it: extract each field by its byte
offset directly from the byte slice (ICMP fields at `4 * IHL`, TTL at
byte 8), with no reinterpretation of memory. -/
def decode_spec (data : List Nat) : IcmpReply :=
  let b := recvBuffer data
  let off := (b.getD 0 0 % 16) * 4
  { ty := b.getD off 0
    code := b.getD (off + 1) 0
    cksum := b.getD (off + 2) 0 + 256 * b.getD (off + 3) 0
    ident := b.getD (off + 4) 0 + 256 * b.getD (off + 5) 0
    seqn := b.getD (off + 6) 0 + 256 * b.getD (off + 7) 0
    ttl := b.getD 8 0 }

/-! ## Packet-loss computation (src/src/ping.cpp, `summary`) -/

/-- Shallow embedding of the packet-loss computation of `summary`
(src/src/ping.cpp lines 272-281).  `received_packets` and
`transmitted_packets` are `uint16_t`, so
`auto ratio = received_packets / transmitted_packets;` is integer division;
`std::ceil(100.0 - (ratio * 100.0))` is then exact on the resulting whole
number.  When `transmitted = 0` the division is undefined behaviour (there
is no guard in the code), modelled as `none`. -/
def summary_packet_loss (tx rx : Nat) : Option Int :=
  if tx = 0 then none
  else some (100 - 100 * (rx / tx : Nat))

/-- The packet-loss formula the claim states: `ceil(100 - (rx/tx)*100)`
computed over the rational ratio `rx / tx`. -/
def claim_packet_loss (tx rx : Nat) : Int :=
  ⌈(100 : ℚ) - ((rx : ℚ) / (tx : ℚ)) * 100⌉

/-! ## The ping probe loop (src/src/ping.cpp, `ping`, `send`, `recv`,
`summary`, `sigint_handler`)

The raw channel is abstracted as an oracle mapping the probe's sequence
number to the outcome of that probe's `recvfrom`: a decoded reply, a
timeout (`errno == EWOULDBLOCK`), or a fatal receive error.  Timing and the
1-second inter-probe sleep have no behavioural effect on the claims and are
not modelled. -/

/-- Outcome of one `recvfrom` call, as classified by `recv`. -/
inductive ProbeResult where
  | timeout : ProbeResult
  | fatal : ProbeResult
  | reply (ty code ident seqn ttl : Nat) : ProbeResult
  deriving DecidableEq

/-- Observable output of a ping run, in program order. -/
inductive PingEvent where
  | sent (seqn : Nat) : PingEvent
  | echoLine (seqn ttl : Nat) : PingEvent
  | unreachLine (seqn code : Nat) : PingEvent
  | genericLine (ty code ident : Nat) : PingEvent
  | failLine : PingEvent
  | fatalExit : PingEvent
  | summaryLine (tx rx : Nat) : PingEvent
  | rttStatsLine : PingEvent
  | noSamplesExit : PingEvent
  | divCrash : PingEvent
  | closed : PingEvent
  deriving DecidableEq

/-- The engine's mutable counters: `transmitted_packets`,
`received_packets` and the `rtt` sample vector (only its size matters for
the claims). -/
structure PingSt where
  transmitted : Nat
  received : Nat
  rttCount : Nat
  deriving DecidableEq

/-- Output of `summary` (src/src/ping.cpp lines 272-294).  Its very first
statement, `auto ratio = received_packets / transmitted_packets;`
(line 274), divides with no `transmitted == 0` guard: when no probe has
been transmitted the division by zero crashes the process before anything
is printed (`divCrash`).  Otherwise the statistics header and loss line are
printed; if the RTT vector is then empty, `utils::error` exits without
printing the min/avg/max/mdev line. -/
def summaryEvents (st : PingSt) : List PingEvent :=
  if st.transmitted = 0 then [PingEvent.divCrash]
  else
    PingEvent.summaryLine st.transmitted st.received ::
      (if st.rttCount = 0 then [PingEvent.noSamplesExit] else [PingEvent.rttStatsLine])

/-- Output of `sigint_handler` (src/src/ping.cpp lines 296-301):
`summary(); close(sockfd); exit(sig);` — when the RTT vector is empty,
`summary` exits first and `close` is never reached. -/
def sigintEvents (st : PingSt) : List PingEvent :=
  summaryEvents st ++ (if st.rttCount = 0 then [] else [PingEvent.closed])

/-- Final state and output of a ping run. -/
structure PingRun where
  st : PingSt
  events : List PingEvent
  deriving DecidableEq

/-- Shallow embedding of the probe loop of `ping`
(src/src/ping.cpp lines 152-198).  `fuel` is `n - ping_count`; each
iteration sends probe `count + 1` (the code's `++ping_count`, so sequence
numbers start at 1), then classifies the receive outcome:

* fatal receive error — `utils::error` prints and exits non-zero (no
  summary, no close);
* timeout (`EWOULDBLOCK`) — print the failure line, then
  `kill(getpid(), SIGINT)` runs `sigint_handler`, which prints the summary
  and exits, before `received_packets++` is reached;
* echo request (type 8) or echo reply (type 0) — count it received, record
  an RTT sample, print the per-probe line (with the reply's own sequence
  and TTL fields), continue;
* destination unreachable (type 3) — count it received, print the reason
  line, then `kill(getpid(), SIGINT)` ends the run through the handler;
* anything else — count it received, print the generic line, continue.

When the loop exhausts its count, `summary()` then `close(sockfd)` run. -/
def pingLoop (oracle : Nat → ProbeResult) : Nat → Nat → PingSt → PingRun
  | 0, _, st => ⟨st, summaryEvents st ++ (if st.rttCount = 0 then [] else [PingEvent.closed])⟩
  | fuel + 1, count, st =>
    let seqn := count + 1
    let st1 : PingSt := ⟨st.transmitted + 1, st.received, st.rttCount⟩
    match oracle seqn with
    | ProbeResult.fatal => ⟨st1, [PingEvent.sent seqn, PingEvent.fatalExit]⟩
    | ProbeResult.timeout =>
        ⟨st1, PingEvent.sent seqn :: PingEvent.failLine :: sigintEvents st1⟩
    | ProbeResult.reply ty code ident rseq ttl =>
        let st2 : PingSt := ⟨st1.transmitted, st1.received + 1, st1.rttCount⟩
        if ty = 8 ∨ ty = 0 then
          let st3 : PingSt := ⟨st2.transmitted, st2.received, st2.rttCount + 1⟩
          let rest := pingLoop oracle fuel (count + 1) st3
          ⟨rest.st, PingEvent.sent seqn :: PingEvent.echoLine rseq ttl :: rest.events⟩
        else if ty = 3 then
          ⟨st2, PingEvent.sent seqn :: PingEvent.unreachLine rseq code :: sigintEvents st2⟩
        else
          let rest := pingLoop oracle fuel (count + 1) st2
          ⟨rest.st, PingEvent.sent seqn :: PingEvent.genericLine ty code ident :: rest.events⟩

/-- `ping(target, n)` (src/src/ping.cpp lines 126-198): counters start at
zero and `if (n == 0) n = DEFAULT_PINGS_COUNT;` substitutes the default
count of 4 (line 79). -/
def ping_run (n : Nat) (oracle : Nat → ProbeResult) : PingRun :=
  pingLoop oracle (if n = 0 then 4 else n) 0 ⟨0, 0, 0⟩

/-- Recognises the statistics header/loss line of `summary`. -/
def isSummaryLine : PingEvent → Bool
  | PingEvent.summaryLine _ _ => true
  | _ => false

/-- Sequence numbers of the probes actually sent, in order. -/
def sentSeqs (evs : List PingEvent) : List Nat :=
  evs.filterMap fun e =>
    match e with
    | PingEvent.sent s => some s
    | _ => none

/-! ## The traceroute TTL scan (src/src/traceroute.cpp, revised `traceroute`)

The channel is abstracted as an oracle mapping `(ttl, seq)` to the source
address of the reply received for that probe, or `none` for a timeout of the
`select` call.  Addresses are modelled as the `Nat` value of
`sin_addr.s_addr`.  Reply timing (`rtt`) and hostname resolution
(`print_entry`'s `getnameinfo`) have no control-flow effect and are recorded
only as events. -/

/-- Observable output of a traceroute run, in program order. -/
inductive TrEvent where
  | setTTL (ttl : Nat) : TrEvent
  | hopNumber (ttl : Nat) : TrEvent
  | send (ttl seqn : Nat) : TrEvent
  | entry (ttl addr : Nat) : TrEvent
  | rttLine (ttl seqn : Nat) : TrEvent
  | star (ttl seqn : Nat) : TrEvent
  | newline : TrEvent
  deriving DecidableEq

/-- The inner query loop of `traceroute` (src/src/traceroute.cpp lines
340-397): `for (seq = 1; seq <= max_queries; seq++)`.  `fuel` is
`max_queries + 1 - seqn`.  Each query updates the request and sends it; on a
reply, if this is the first query and the source address equals the previous
hop's address the loop breaks with `reached = true` (lines 368-377, before
any printing for this hop); otherwise the first query prints the hop entry,
each reply prints its RTT, `reached` is set when the source address equals
the destination (lines 384-386), and `prev_addr` becomes the reply's
address; on a timeout a `*` is printed for this and every remaining query
and the loop breaks (lines 390-396).  Returns the events emitted, the final
`prev_addr` and the final `reached` flag. -/
def trQueries (dest : Nat) (oracle : Nat → Nat → Option Nat) (ttl : Nat) :
    Nat → Nat → Nat → Bool → (List TrEvent × Nat × Bool)
  | 0, _, prev, reached => ([], prev, reached)
  | fuel + 1, seqn, prev, reached =>
    match oracle ttl seqn with
    | some addr =>
        if seqn = 1 ∧ addr = prev then
          ([TrEvent.send ttl seqn], prev, true)
        else
          let entryEvs := if seqn = 1 then [TrEvent.entry ttl addr] else []
          let reached1 := if addr = dest then true else reached
          let rest := trQueries dest oracle ttl fuel (seqn + 1) addr reached1
          (TrEvent.send ttl seqn :: entryEvs ++ TrEvent.rttLine ttl seqn :: rest.1,
            rest.2.1, rest.2.2)
    | none =>
        (TrEvent.send ttl seqn :: (List.range' seqn (fuel + 1)).map (TrEvent.star ttl),
          prev, reached)

/-- The outer TTL loop of `traceroute` (src/src/traceroute.cpp lines
329-399): `for (ttl = 1; ttl <= max_hops; ttl++)`.  `fuel` is
`max_hops + 1 - ttl`.  Each iteration sets the socket TTL first, then —
still after that `setsockopt` — breaks if `reached` is set (lines 330-335);
otherwise it prints the hop number, runs the query loop and prints the
final newline. -/
def trHops (maxQ dest : Nat) (oracle : Nat → Nat → Option Nat) :
    Nat → Nat → Nat → Bool → List TrEvent
  | 0, _, _, _ => []
  | fuel + 1, ttl, prev, reached =>
    TrEvent.setTTL ttl ::
      (if reached then [] else
        TrEvent.hopNumber ttl ::
          (let q := trQueries dest oracle ttl maxQ 1 prev reached
           q.1 ++ TrEvent.newline :: trHops maxQ dest oracle fuel (ttl + 1) q.2.1 q.2.2))

/-- `traceroute(target, h, q)` (src/src/traceroute.cpp lines 297-403):
`h == 0` and `q == 0` are replaced by the defaults `MAX_HOPS = 30` and
`MAX_QUERIES = 3` (lines 307-311); the scan starts at TTL 1 with the
`reached` flag clear.  `prev0` is the initial content of the uninitialised
`prev_addr` local. -/
def traceroute_run (h q dest prev0 : Nat) (oracle : Nat → Nat → Option Nat) :
    List TrEvent :=
  trHops (if q = 0 then 3 else q) dest oracle (if h = 0 then 30 else h) 1 prev0 false

/-- Channel for the C8 counterexample: at TTL 1 the first query is answered
by the destination (address 9) and every later query times out. -/
def trOracleCE : Nat → Nat → Option Nat :=
  fun t s => if t = 1 ∧ s = 1 then some 9 else none

/-! ## Statistics helpers (src/include/ntool/utils.hpp, `utils::mean` and
`utils::mdev`)

The C helpers work on `double`; the claims under scrutiny concern their
guards and divisors, which are exact, so the samples are modelled as
rationals. -/

/-- Shallow embedding of `utils::mean` (src/include/ntool/utils.hpp lines
56-63): an empty range returns `0.0`, otherwise the accumulated sum divided
by the element count. -/
def mean (xs : List ℚ) : ℚ :=
  if xs = [] then 0 else xs.sum / xs.length

/-- Shallow embedding of `utils::mdev` (src/include/ntool/utils.hpp lines
72-85): an empty range returns `0.0`, otherwise the summed absolute
deviations from the mean divided by the element count. -/
def mdev (xs : List ℚ) : ℚ :=
  if xs = [] then 0 else (xs.map fun x => |x - mean xs|).sum / xs.length

theorem onesFold_of_lt {s : Nat} (h : s < 65536) : onesFold s = s := by
  rw [onesFold]; simp [h]

theorem onesFold_step {s : Nat} (h : ¬ s < 65536) :
    onesFold s = onesFold (s / 65536 + s % 65536) := by
  conv_lhs => rw [onesFold]
  simp [h]

theorem onesFold_lt (s : Nat) : onesFold s < 65536 := by
  induction s using onesFold.induct with
  | case1 s h => rw [onesFold]; simp [h]
  | case2 s h ih => rw [onesFold]; simpa [h] using ih

theorem onesFold_le_self (s : Nat) : onesFold s ≤ s := by
  induction s using onesFold.induct with
  | case1 s h => rw [onesFold]; simp [h]
  | case2 s h ih => rw [onesFold]; simp [h]; omega

theorem onesFold_mod (s : Nat) : onesFold s % 65535 = s % 65535 := by
  induction s using onesFold.induct with
  | case1 s h => rw [onesFold]; simp [h]
  | case2 s h ih => rw [onesFold]; simp [h]; omega

theorem onesFold_of_multiple (s : Nat) (hpos : 0 < s) (hmod : s % 65535 = 0) :
    onesFold s = 65535 := by
  induction s using onesFold.induct with
  | case1 s h =>
      rw [onesFold]
      simp only [h, if_pos]
      omega
  | case2 s h ih =>
      rw [onesFold]
      simp only [h, if_neg, ite_false]
      exact ih (by omega) (by omega)

/-- The two folds plus the final 16-bit truncation performed by the code agree
with the fold-until-it-fits description, for any 32-bit running sum. -/
theorem twofold_eq_onesFold (s : Nat) (h : s < 2 ^ 32) :
    fold2 s % 65536 = onesFold s := by
  unfold fold2 fold1
  have hdiv : s / 65536 < 65536 := by omega
  by_cases h1 : s < 65536
  · rw [onesFold_of_lt h1]
    have e0 : s / 65536 = 0 := Nat.div_eq_of_lt h1
    simp [e0, Nat.mod_eq_of_lt h1]
  · rw [onesFold_step h1]
    by_cases h2 : s / 65536 + s % 65536 < 65536
    · rw [onesFold_of_lt h2]
      have e1 : (s / 65536 + s % 65536) / 65536 = 0 := Nat.div_eq_of_lt h2
      simp [e1, Nat.mod_eq_of_lt h2]
    · have hub : s / 65536 + s % 65536 ≤ 131070 := by omega
      have e1 : (s / 65536 + s % 65536) / 65536 = 1 := by omega
      rw [onesFold_step h2, e1]
      have e2 : (s / 65536 + s % 65536) % 65536
          = s / 65536 + s % 65536 - 65536 := by omega
      rw [e2, onesFold_of_lt (by omega)]
      omega

/-- Helper: `calculate_checksum` is the complement of the folded word sum. -/
theorem calculate_checksum_eq (buf : List Nat) :
    calculate_checksum buf = 65535 - onesFold (wordSum32 buf) := by
  unfold calculate_checksum
  have hlt : wordSum32 buf < 2 ^ 32 := Nat.mod_lt _ (by norm_num)
  have h := twofold_eq_onesFold (wordSum32 buf) hlt
  have hfold := onesFold_lt (wordSum32 buf)
  have hf2 : fold2 (wordSum32 buf) ≤ 262141 := by
    unfold fold2 fold1; omega
  omega

/-- C1.  The checksum function sums the buffer as 16-bit words (a trailing
odd byte entering as the low byte of a padding word, via `toWords`), folds
the 32-bit running sum by repeatedly adding its high 16 bits into its low
16 bits until the value fits in 16 bits, and returns the bitwise complement;
it is a pure total function (a plain `def` over any byte list, the empty one
included) whose result always fits in 16 bits. -/
theorem calculate_checksum_matches_spec (buf : List Nat) :
    calculate_checksum buf = checksum_spec buf ∧ calculate_checksum buf < 65536 := by
  constructor
  · rw [calculate_checksum_eq buf]; rfl
  · rw [calculate_checksum_eq buf]
    omega

theorem toWords_packet_sum (a b x2 x3 x4 x5 x6 x7 : Nat) :
    (toWords (a :: b :: x2 :: x3 :: x4 :: x5 :: x6 :: x7 :: payloadBytes)).sum
      = (a + 256 * b) + (x2 + 256 * x3) + (x4 + 256 * x5) + (x6 + 256 * x7)
        + 409461 := by
  simp [payloadBytes, toWords]
  ring

/-- C2.  A message formed with its checksum field first zeroed and then
overwritten by the computed checksum verifies to zero: recomputing the
one's-complement sum over the full resulting 64-byte buffer, checksum
included, folding and complementing yields 0 — for every type, code,
identifier and sequence in range. -/
theorem set_packet_checksum_verifies_zero (t c i s : Nat)
    (ht : t < 256) (hc : c < 256) (hi : i < 65536) (hs : s < 65536) :
    calculate_checksum (set_packet t c i s) = 0 := by
  have hsum : ∀ ck, ck < 65536 →
      wordSum32 (icmp_packet_bytes t c ck i s)
        = t + 256 * c + ck + i + s + 409461 := by
    intro ck hck
    unfold wordSum32 icmp_packet_bytes
    rw [toWords_packet_sum]
    omega
  set ck := calculate_checksum (icmp_packet_bytes t c 0 i s) with hckdef
  have hz : wordSum32 (icmp_packet_bytes t c 0 i s)
      = t + 256 * c + i + s + 409461 := by
    have := hsum 0 (by omega)
    omega
  have hck : ck = 65535 - onesFold (t + 256 * c + i + s + 409461) := by
    rw [hckdef, calculate_checksum_eq, hz]
  have hcklt : ck < 65536 := by rw [hck]; omega
  have hfle := onesFold_le_self (t + 256 * c + i + s + 409461)
  have hfmod := onesFold_mod (t + 256 * c + i + s + 409461)
  have hflt := onesFold_lt (t + 256 * c + i + s + 409461)
  have hfull : wordSum32 (set_packet t c i s)
      = t + 256 * c + ck + i + s + 409461 := by
    unfold set_packet
    rw [← hckdef]
    exact hsum ck hcklt
  rw [calculate_checksum_eq, hfull]
  have hres : onesFold (t + 256 * c + ck + i + s + 409461) = 65535 := by
    apply onesFold_of_multiple
    · omega
    · omega
  omega

theorem set_packet_checksum_verifies_zero_witness :
    (8 : Nat) < 256 ∧ (0 : Nat) < 256 ∧ (4660 : Nat) < 65536 ∧ (1 : Nat) < 65536 ∧
      calculate_checksum (set_packet 8 0 4660 1) = 0 :=
  ⟨by norm_num, by norm_num, by norm_num, by norm_num,
    set_packet_checksum_verifies_zero 8 0 4660 1 (by norm_num) (by norm_num)
      (by norm_num) (by norm_num)⟩

/-- C3 (counterexample).  A received buffer of a single byte — far smaller
than the 8-byte ICMP header — is still decoded into a message (all fields
read from the zero-filled remainder of the receive buffer); the decoder has
no failure path at all, so no `DecodeError::TooShort` is ever produced. -/
theorem handle_packet_short_buffer_decodes :
    handle_packet [69] = ⟨0, 0, 0, 0, 0, 0⟩ := by decide

theorem getD_take_eight (l : List Nat) (i : Nat) (h : i < 8) :
    (l.take 8).getD i 0 = l.getD i 0 := by
  rw [List.getD_eq_getElem?_getD, List.getD_eq_getElem?_getD,
    List.getElem?_take, if_pos h]

theorem getD_drop (l : List Nat) (n i : Nat) :
    (l.drop n).getD i 0 = l.getD (n + i) 0 := by
  rw [List.getD_eq_getElem?_getD, List.getD_eq_getElem?_getD,
    List.getElem?_drop]

/-- C3 (amended).  Decoding never fails: for every received buffer —
including every buffer shorter than the fixed 8-byte ICMP header size — the
struct-reinterpretation decode of the code (`handle_packet`: `memcpy` of 8
bytes at pointer offset `4 * IHL`) produces a message, equal to the
byte-offset extraction described by the specification (`decode_spec`), the
missing bytes being read from the zero-filled remainder of the static
64-byte receive buffer. -/
theorem handle_packet_total_byte_offset (data : List Nat) :
    handle_packet data = decode_spec data := by
  unfold handle_packet decode_spec
  simp [getD_take_eight, getD_drop]

/-- C4.  At the claim's own example (5 transmitted, 4 received) the code
prints 100% packet loss — the `uint16_t` integer division makes the ratio
`4 / 5 = 0` — while the claimed rational formula gives 20%; the two
disagree, and the code has no `transmitted == 0` guard at all. -/
theorem summary_packet_loss_at_failing_input :
    summary_packet_loss 5 4 = some 100 ∧
      claim_packet_loss 5 4 = 20 ∧
      summary_packet_loss 5 4 ≠ some (claim_packet_loss 5 4) ∧
      summary_packet_loss 0 0 = none := by
  refine ⟨by decide, ?_, ?_, by decide⟩
  · unfold claim_packet_loss
    norm_num
  · unfold claim_packet_loss
    norm_num [summary_packet_loss]

/-- C5 (counterexample).  With a channel that times out on every probe, a
run requested with count = 3 transmits only one probe: the first timeout
terminates the whole run through `kill(getpid(), SIGINT)` instead of
continuing to the next probe. -/
theorem ping_timeout_terminates_run :
    (ping_run 3 (fun _ => ProbeResult.timeout)).st.transmitted = 1 ∧
      (ping_run 3 (fun _ => ProbeResult.timeout)).st.transmitted ≠ 3 := by
  decide

/-- C5 (amended).  For every requested count and every channel whose first
probe times out, the engine prints the failure-to-receive line and records
no RTT sample, but does not continue the loop: it self-interrupts, prints
the summary (reporting 1 transmitted, 0 received) and exits, so exactly one
probe is ever transmitted. -/
theorem ping_timeout_first_probe_behavior (n : Nat) (oracle : Nat → ProbeResult)
    (h : oracle 1 = ProbeResult.timeout) :
    (ping_run n oracle).st.transmitted = 1 ∧
      (ping_run n oracle).st.rttCount = 0 ∧
      (ping_run n oracle).events
        = [PingEvent.sent 1, PingEvent.failLine,
           PingEvent.summaryLine 1 0, PingEvent.noSamplesExit] := by
  unfold ping_run
  obtain ⟨fuel, hfuel⟩ : ∃ fuel, (if n = 0 then 4 else n) = fuel + 1 := by
    by_cases hn : n = 0
    · simp [hn]
    · simp [hn]
      omega
  rw [hfuel]
  simp [pingLoop, h, sigintEvents, summaryEvents]

theorem ping_timeout_first_probe_behavior_witness :
    (fun (_ : Nat) => ProbeResult.timeout) 1 = ProbeResult.timeout ∧
      (ping_run 3 (fun (_ : Nat) => ProbeResult.timeout)).st.transmitted = 1 :=
  ⟨rfl, (ping_timeout_first_probe_behavior 3 (fun (_ : Nat) => ProbeResult.timeout) rfl).1⟩

/-- Helper for C6: as long as no fatal receive error occurs, the loop's
output contains the summary statistics line whenever a probe has already
been transmitted or at least one iteration remains (every iteration
transmits before any exit, so `summary` never runs at `transmitted = 0`
from inside the loop). -/
theorem pingLoop_has_summary (oracle : Nat → ProbeResult)
    (hor : ∀ k, oracle k ≠ ProbeResult.fatal) :
    ∀ fuel count st, 1 ≤ st.transmitted ∨ 1 ≤ fuel → ∃ tx rx,
      PingEvent.summaryLine tx rx ∈ (pingLoop oracle fuel count st).events := by
  intro fuel
  induction fuel with
  | zero =>
      intro count st hst
      have h0 : ¬ st.transmitted = 0 := by omega
      refine ⟨st.transmitted, st.received, ?_⟩
      simp [pingLoop, summaryEvents, h0]
  | succ fuel ih =>
      intro count st hst
      rcases hm : oracle (count + 1) with _ | _ | ⟨ty, code, ident, rseq, ttl⟩
      · refine ⟨st.transmitted + 1, st.received, ?_⟩
        simp [pingLoop, hm, sigintEvents, summaryEvents]
      · exact absurd hm (hor (count + 1))
      · by_cases hty : ty = 8 ∨ ty = 0
        · obtain ⟨tx, rx, hmem⟩ :=
            ih (count + 1) ⟨st.transmitted + 1, st.received + 1, st.rttCount + 1⟩
              (Or.inl (Nat.succ_le_succ (Nat.zero_le _)))
          refine ⟨tx, rx, ?_⟩
          simp [pingLoop, hm, hty]
          exact hmem
        · by_cases hty3 : ty = 3
          · refine ⟨st.transmitted + 1, st.received + 1, ?_⟩
            simp [pingLoop, hm, hty, hty3, sigintEvents, summaryEvents]
          · obtain ⟨tx, rx, hmem⟩ :=
              ih (count + 1) ⟨st.transmitted + 1, st.received + 1, st.rttCount⟩
                (Or.inl (Nat.succ_le_succ (Nat.zero_le _)))
            refine ⟨tx, rx, ?_⟩
            simp [pingLoop, hm, hty, hty3]
            exact hmem

/-- C6 (counterexample).  An external cancellation delivered before the
first probe's `transmitted_packets++` (reachable: `init()` installs
`sigint_handler` before the loop starts) runs `summary()` at
`transmitted = 0`, whose very first statement divides by zero and crashes
the process: no summary statistics line is printed on that termination
path. -/
theorem ping_cancel_before_send_no_summary :
    sigintEvents ⟨0, 0, 0⟩ = [PingEvent.divCrash] ∧
      ((sigintEvents ⟨0, 0, 0⟩).any isSummaryLine) = false := by
  decide

/-- C6 (amended).  On every termination path of a ping run that the claim
names — probe count exhausted, destination unreachable received, or (via
the timeout self-interrupt and the handler itself) external cancellation —
the summary statistics are printed before the run ends, provided at least
one probe has been transmitted: any run whose probes never hit a fatal
receive error emits the summary line (every in-loop exit transmits first),
and the `sigint_handler` used for cancellation prints it from every engine
state with a transmitted probe.  A cancellation before the first send
completes instead dies in `summary()`'s unguarded division by zero without
printing (see the counterexample). -/
theorem ping_summary_on_termination (n : Nat) (oracle : Nat → ProbeResult)
    (hor : ∀ k, oracle k ≠ ProbeResult.fatal) :
    (∃ tx rx, PingEvent.summaryLine tx rx ∈ (ping_run n oracle).events) ∧
      ∀ st : PingSt, 1 ≤ st.transmitted →
        ∃ tx rx, PingEvent.summaryLine tx rx ∈ sigintEvents st := by
  constructor
  · unfold ping_run
    apply pingLoop_has_summary oracle hor
    right
    by_cases hn : n = 0
    · simp [hn]
    · simp [hn]
      omega
  · intro st hst
    have h0 : ¬ st.transmitted = 0 := by omega
    refine ⟨st.transmitted, st.received, ?_⟩
    simp [sigintEvents, summaryEvents, h0]

theorem ping_summary_on_termination_witness :
    (∀ k : Nat, (fun (_ : Nat) => ProbeResult.timeout) k ≠ ProbeResult.fatal) ∧
      (1 ≤ (⟨1, 0, 0⟩ : PingSt).transmitted) ∧
      (∃ tx rx, PingEvent.summaryLine tx rx
          ∈ (ping_run 2 (fun (_ : Nat) => ProbeResult.timeout)).events) ∧
      (∃ tx rx, PingEvent.summaryLine tx rx ∈ sigintEvents ⟨1, 0, 0⟩) :=
  ⟨fun _ => by simp, by decide,
    (ping_summary_on_termination 2 (fun (_ : Nat) => ProbeResult.timeout)
      (fun _ => by simp)).1,
    (ping_summary_on_termination 2 (fun (_ : Nat) => ProbeResult.timeout)
      (fun _ => by simp)).2 ⟨1, 0, 0⟩ (by decide)⟩

/-- C9.  Requesting a probe count of 0 behaves exactly like requesting the
default count 4 (`DEFAULT_PINGS_COUNT`), for every channel; and on a
channel that answers every probe with an echo reply, exactly four probes
are transmitted, with sequence numbers 1, 2, 3, 4. -/
theorem ping_zero_count_defaults_to_four (oracle : Nat → ProbeResult) :
    ping_run 0 oracle = ping_run 4 oracle ∧
      ((∀ k, oracle k = ProbeResult.reply 0 0 0 k 64) →
        (ping_run 0 oracle).st.transmitted = 4 ∧
          sentSeqs (ping_run 0 oracle).events = [1, 2, 3, 4]) := by
  constructor
  · rfl
  · intro h
    constructor
    · simp [ping_run, pingLoop, h]
    · simp [ping_run, pingLoop, h, sentSeqs, summaryEvents]

theorem ping_zero_count_defaults_to_four_witness :
    (∀ k : Nat, (fun (k : Nat) => ProbeResult.reply 0 0 0 k 64) k
        = ProbeResult.reply 0 0 0 k 64) ∧
      sentSeqs (ping_run 0 (fun (k : Nat) => ProbeResult.reply 0 0 0 k 64)).events
        = [1, 2, 3, 4] :=
  ⟨fun _ => rfl,
    ((ping_zero_count_defaults_to_four (fun (k : Nat) => ProbeResult.reply 0 0 0 k 64)).2
      (fun _ => rfl)).2⟩

/-- A `trHops` continuation entered with `reached` set emits at most the
`setsockopt` of the next TTL: no probe is sent and nothing is printed. -/
theorem trHops_reached (maxQ dest : Nat) (oracle : Nat → Nat → Option Nat)
    (fuel ttl prev : Nat) :
    trHops maxQ dest oracle fuel ttl prev true
      = if fuel = 0 then [] else [TrEvent.setTTL ttl] := by
  cases fuel with
  | zero => simp [trHops]
  | succ fuel => simp [trHops]

/-- C7.  If at any point of the scan the first reply for the current TTL
comes from the same source address as the immediately preceding hop
(`prev_addr`), the remainder of the run consists only of this TTL's probe,
its hop-number prefix and newline, and the `setsockopt` of the next TTL:
the engine stops scanning all further TTLs, sends no further probe, and
never prints a hop entry line (`print_entry`) for the duplicate occurrence
nor for any later TTL. -/
theorem traceroute_duplicate_hop_stops (maxQ dest : Nat)
    (oracle : Nat → Nat → Option Nat) (fuel t prev : Nat)
    (hq : 1 ≤ maxQ) (hdup : oracle t 1 = some prev) :
    trHops maxQ dest oracle (fuel + 1) t prev false
        = [TrEvent.setTTL t, TrEvent.hopNumber t, TrEvent.send t 1, TrEvent.newline]
          ++ (if fuel = 0 then [] else [TrEvent.setTTL (t + 1)]) ∧
      (∀ t1 a, t ≤ t1 →
        TrEvent.entry t1 a ∉ trHops maxQ dest oracle (fuel + 1) t prev false) ∧
      (∀ t1 s1, t < t1 →
        TrEvent.send t1 s1 ∉ trHops maxQ dest oracle (fuel + 1) t prev false) := by
  obtain ⟨q, rfl⟩ : ∃ q, maxQ = q + 1 := ⟨maxQ - 1, by omega⟩
  have hmain : trHops (q + 1) dest oracle (fuel + 1) t prev false
      = [TrEvent.setTTL t, TrEvent.hopNumber t, TrEvent.send t 1, TrEvent.newline]
        ++ (if fuel = 0 then [] else [TrEvent.setTTL (t + 1)]) := by
    have hinner : trQueries dest oracle t (q + 1) 1 prev false
        = ([TrEvent.send t 1], prev, true) := by
      simp [trQueries, hdup]
    simp [trHops, hinner, trHops_reached]
  refine ⟨hmain, ?_, ?_⟩
  · intro t1 a ht1
    rw [hmain]
    by_cases hf : fuel = 0 <;> simp [hf]
  · intro t1 s1 ht1
    rw [hmain]
    by_cases hf : fuel = 0 <;> simp [hf] <;> omega

theorem traceroute_duplicate_hop_stops_witness :
    (1 : Nat) ≤ 3 ∧
      (fun (_ : Nat) (_ : Nat) => some 7) 2 1 = some 7 ∧
      trHops 3 9 (fun (_ : Nat) (_ : Nat) => some 7) 4 2 7 false
        = [TrEvent.setTTL 2, TrEvent.hopNumber 2, TrEvent.send 2 1, TrEvent.newline,
           TrEvent.setTTL 3] :=
  ⟨by norm_num, rfl, by
    have h := (traceroute_duplicate_hop_stops 3 9
      (fun (_ : Nat) (_ : Nat) => some 7) 3 2 7 (by norm_num) rfl).1
    simpa using h⟩

/-- Every probe event emitted by the query loop at TTL `t` carries TTL `t`. -/
theorem trQueries_send_ttl (dest : Nat) (oracle : Nat → Nat → Option Nat) (t : Nat) :
    ∀ f j prev reached t1 s1,
      TrEvent.send t1 s1 ∈ (trQueries dest oracle t f j prev reached).1 → t1 = t := by
  intro f
  induction f with
  | zero =>
      intro j prev reached t1 s1 hmem
      simp [trQueries] at hmem
  | succ f ih =>
      intro j prev reached t1 s1 hmem
      rcases ho : oracle t j with _ | a
      · simp only [trQueries, ho] at hmem
        rcases List.mem_cons.mp hmem with hcon | hmem
        · injection hcon with h1 h2
        · obtain ⟨x, _, hx⟩ := List.mem_map.mp hmem
          cases hx
      · by_cases hdup : j = 1 ∧ a = prev
        · simp only [trQueries, ho] at hmem
          rw [if_pos hdup] at hmem
          rcases List.mem_cons.mp hmem with hcon | hmem
          · injection hcon with h1 h2
          · simp at hmem
        · simp only [trQueries, ho] at hmem
          rw [if_neg hdup] at hmem
          rcases List.mem_cons.mp hmem with hcon | hmem
          · injection hcon with h1 h2
          · rcases List.mem_append.mp hmem with hmem | hmem
            · by_cases hj : j = 1
              · rw [if_pos hj] at hmem
                simp at hmem
              · rw [if_neg hj] at hmem
                simp at hmem
            · rcases List.mem_cons.mp hmem with hcon | hmem
              · cases hcon
              · exact ih _ _ _ _ _ hmem

/-- The query loop, when every query in its window is answered and the
first query is not a duplicate of the previous hop, runs all its queries
(sending each one) and ends with `reached` set if and only if it was
already set or some reply in the window came from `dest`. -/
theorem trQueries_replies (dest : Nat) (oracle : Nat → Nat → Option Nat) (t : Nat) :
    ∀ f j prev reached, 1 ≤ j →
      (∀ s, j ≤ s → s < j + f → (oracle t s).isSome = true) →
      (j = 1 → oracle t 1 ≠ some prev) →
      ((∀ s, j ≤ s → s < j + f →
          TrEvent.send t s ∈ (trQueries dest oracle t f j prev reached).1) ∧
        ((trQueries dest oracle t f j prev reached).2.2 = true ↔
          (reached = true ∨ ∃ s, j ≤ s ∧ s < j + f ∧ oracle t s = some dest))) := by
  intro f
  induction f with
  | zero =>
      intro j prev reached hj h hnd
      refine ⟨fun s hs1 hs2 => absurd hs2 (by omega), ?_⟩
      simp only [trQueries]
      constructor
      · intro h1; exact Or.inl h1
      · rintro (h1 | ⟨s, hs1, hs2, _⟩)
        · exact h1
        · omega
  | succ f ih =>
      intro j prev reached hj h hnd
      have hsome := h j (Nat.le_refl j) (by omega)
      obtain ⟨a, ha⟩ := Option.isSome_iff_exists.mp hsome
      have hdup : ¬ (j = 1 ∧ a = prev) := by
        rintro ⟨rfl, rfl⟩
        exact hnd rfl ha
      have ih' := ih (j + 1) a (if a = dest then true else reached) (by omega)
        (fun s hs1 hs2 => h s (by omega) (by omega))
        (fun hcon => absurd hcon (by omega))
      simp only [trQueries, ha, if_neg hdup]
      refine ⟨?_, ?_⟩
      · intro s hs1 hs2
        rcases Nat.eq_or_lt_of_le hs1 with rfl | hlt
        · exact List.mem_cons_self _ _
        · refine List.mem_cons_of_mem _ (List.mem_append_right _ ?_)
          exact List.mem_cons_of_mem _ (ih'.1 s (by omega) (by omega))
      · rw [ih'.2]
        by_cases had : a = dest
        · subst had
          simp only [if_pos rfl]
          constructor
          · intro _
            exact Or.inr ⟨j, Nat.le_refl j, by omega, ha⟩
          · intro _
            exact Or.inl rfl
        · rw [if_neg had]
          constructor
          · rintro (hr | ⟨s, hs1, hs2, hs3⟩)
            · exact Or.inl hr
            · exact Or.inr ⟨s, by omega, by omega, hs3⟩
          · rintro (hr | ⟨s, hs1, hs2, hs3⟩)
            · exact Or.inl hr
            · rcases Nat.eq_or_lt_of_le hs1 with rfl | h2
              · rw [ha] at hs3
                cases hs3
                exact absurd rfl had
              · exact Or.inr ⟨s, by omega, by omega, hs3⟩

/-- C8 (amended).  If at some TTL every query is answered, the first reply
differs from the previous hop's address, and some reply's source address
equals the destination's resolved address, then the run is marked reached,
every query at that TTL still completes (each of its probes is sent), and
the outer TTL loop stops after that TTL: no probe is sent at any later TTL,
so the engine terminates at that TTL rather than at `max_hops`.  (Without
the all-answered hypothesis the query loop can still be cut short by a
timeout, and a duplicate first reply short-circuits it — see the
counterexample.) -/
theorem traceroute_dest_reached_behavior (maxQ dest : Nat)
    (oracle : Nat → Nat → Option Nat) (fuel t prev : Nat)
    (hall : ∀ s, 1 ≤ s → s ≤ maxQ → (oracle t s).isSome = true)
    (hnd : oracle t 1 ≠ some prev)
    (hdest : ∃ k, 1 ≤ k ∧ k ≤ maxQ ∧ oracle t k = some dest) :
    (trQueries dest oracle t maxQ 1 prev false).2.2 = true ∧
      (∀ s, 1 ≤ s → s ≤ maxQ →
        TrEvent.send t s ∈ trHops maxQ dest oracle (fuel + 1) t prev false) ∧
      (∀ t1 s1, t < t1 →
        TrEvent.send t1 s1 ∉ trHops maxQ dest oracle (fuel + 1) t prev false) := by
  have hinner := trQueries_replies dest oracle t maxQ 1 prev false (Nat.le_refl 1)
    (fun s hs1 hs2 => hall s hs1 (by omega)) (fun _ => hnd)
  obtain ⟨k, hk1, hk2, hk3⟩ := hdest
  have hreach : (trQueries dest oracle t maxQ 1 prev false).2.2 = true :=
    hinner.2.mpr (Or.inr ⟨k, hk1, by omega, hk3⟩)
  refine ⟨hreach, ?_, ?_⟩
  · intro s hs1 hs2
    simp only [trHops, if_neg Bool.false_ne_true]
    refine List.mem_cons_of_mem _ (List.mem_cons_of_mem _ (List.mem_append_left _ ?_))
    exact hinner.1 s hs1 (by omega)
  · intro t1 s1 ht1 hmem
    simp only [trHops, if_neg Bool.false_ne_true] at hmem
    rcases List.mem_cons.mp hmem with hcon | hmem
    · cases hcon
    rcases List.mem_cons.mp hmem with hcon | hmem
    · cases hcon
    rcases List.mem_append.mp hmem with hmem | hmem
    · have := trQueries_send_ttl dest oracle t maxQ 1 prev false t1 s1 hmem
      omega
    rcases List.mem_cons.mp hmem with hcon | hmem
    · cases hcon
    rw [hreach, trHops_reached] at hmem
    by_cases hf : fuel = 0
    · simp [hf] at hmem
    · simp [hf] at hmem

theorem traceroute_dest_reached_behavior_witness :
    ((fun (_ : Nat) (_ : Nat) => some 9) 1 1 ≠ some 0) ∧
      (trQueries 9 (fun (_ : Nat) (_ : Nat) => some 9) 1 3 1 0 false).2.2 = true ∧
      TrEvent.send 1 3 ∈ trHops 3 9 (fun (_ : Nat) (_ : Nat) => some 9) 1 1 0 false :=
  ⟨by simp,
    (traceroute_dest_reached_behavior 3 9 (fun (_ : Nat) (_ : Nat) => some 9) 0 1 0
      (fun _ _ _ => rfl) (by simp) ⟨1, by norm_num, by norm_num, rfl⟩).1,
    (traceroute_dest_reached_behavior 3 9 (fun (_ : Nat) (_ : Nat) => some 9) 0 1 0
      (fun _ _ _ => rfl) (by simp) ⟨1, by norm_num, by norm_num, rfl⟩).2.1
      3 (by norm_num) (by norm_num)⟩

/-- C8 (counterexample).  In a run whose first reply at TTL 1 comes from the
destination (address 9), the second query times out; the code then prints
`*` for the second and third queries and breaks out of the query loop, so
the third query is never sent — the remaining queries at that TTL do not
all complete, refuting that part of the claim (the run is still marked
reached and the scan still stops after TTL 1, witnessed by the lone
`setsockopt` for TTL 2). -/
theorem traceroute_reached_skipped_query :
    trOracleCE 1 1 = some 9 ∧
      TrEvent.rttLine 1 1 ∈ traceroute_run 2 3 9 0 trOracleCE ∧
      TrEvent.star 1 3 ∈ traceroute_run 2 3 9 0 trOracleCE ∧
      TrEvent.send 1 3 ∉ traceroute_run 2 3 9 0 trOracleCE ∧
      TrEvent.send 2 1 ∉ traceroute_run 2 3 9 0 trOracleCE := by
  decide

/-- C10.  The mean and mean-absolute-deviation helpers are total: both
return 0 on an empty sample range instead of dividing by zero, and on every
non-empty range they divide exactly by the element count, which is
positive (stated multiplicatively so that no division-by-zero convention is
involved). -/
theorem mean_mdev_total :
    mean [] = 0 ∧ mdev [] = 0 ∧
      ∀ xs : List ℚ, xs ≠ [] →
        0 < xs.length ∧
          mean xs * (xs.length : ℚ) = xs.sum ∧
          mdev xs * (xs.length : ℚ) = (xs.map fun x => |x - mean xs|).sum := by
  refine ⟨by simp [mean], by simp [mdev], ?_⟩
  intro xs hxs
  have hlen : (xs.length : ℚ) ≠ 0 := by
    simpa using fun hcon => hxs (List.length_eq_zero.mp hcon)
  refine ⟨List.length_pos.mpr hxs, ?_, ?_⟩
  · rw [mean, if_neg hxs, div_mul_cancel₀ _ hlen]
  · rw [mdev, if_neg hxs, div_mul_cancel₀ _ hlen]

theorem mean_mdev_total_witness :
    ([(3 : ℚ), 5] ≠ []) ∧
      mean [(3 : ℚ), 5] * (([(3 : ℚ), 5].length : Nat) : ℚ) = [(3 : ℚ), 5].sum :=
  ⟨by simp, (mean_mdev_total.2.2 [(3 : ℚ), 5] (by simp)).2.1⟩

